import Mathlib

/-!
Shallow embedding of `esdbclient/common.py` (error translation, call metadata,
filter-regex construction, the streamer registry, recorded-event construction)
together with proofs about the behaviour that the specification describes.
-/

namespace Esdbclient

/-! ## Python string helpers -/

/-- Substring test on character lists: `p` occurs contiguously in `l`.
Models the Python expression `p in l` for strings. -/
def listInfixOf (p l : List Char) : Bool :=
  match l with
  | [] => p.isEmpty
  | _ :: t => p.isPrefixOf l || listInfixOf p t

/-- Python `sub in s` for strings. -/
def strContains (s sub : String) : Bool :=
  listInfixOf sub.toList s.toList

/-- Python `str(x)` applied to an optional string: `str(None)` is `"None"`. -/
def pyStr : Option String → String
  | none => "None"
  | some s => s

/-- Python `s.startswith(pre)`. -/
def strStartsWith (s pre : String) : Bool :=
  pre.toList.isPrefixOf s.toList

/-! ## Module-level constants of `common.py` (lines 53-68)

The two fractional constants are written in the source as the float literal
`0.2`; they are embedded as the rational denoted by that decimal literal. -/

def PROTOBUF_MAX_DEADLINE_SECONDS : Nat := 315576000000

def DEFAULT_CHECKPOINT_INTERVAL_MULTIPLIER : Nat := 5

def DEFAULT_WINDOW_SIZE : Nat := 30

def DEFAULT_PERSISTENT_SUBSCRIPTION_MAX_ACK_BATCH_SIZE : Nat := 50

def DEFAULT_PERSISTENT_SUBSCRIPTION_MAX_ACK_DELAY : ℚ := 0.2

def DEFAULT_PERSISTENT_SUBSCRIPTION_STOPPING_GRACE : ℚ := 0.2

/-! ## The gRPC error translator (`handle_rpc_error`, lines 148-196)

A transport error is modelled by whether it is a `grpc.Call` /
`grpc.aio.AioRpcError` (the only case in which code and details are
consulted), its status code, and its optional details string. Status codes
that the translator never tests for are collected under `otherCode`. -/

inductive StatusCode where
  | unknown
  | aborted
  | cancelled
  | deadlineExceeded
  | unavailable
  | alreadyExists
  | notFound
  | failedPrecondition
  | internalError
  | otherCode (name : String)
deriving DecidableEq

structure RpcError where
  isCall : Bool
  code : StatusCode
  details : Option String
deriving DecidableEq

/-- The typed client exceptions that `handle_rpc_error` can return. Payloads
are kept exactly where the source passes the details string (or optional
details) to the exception constructor; exceptions built from the error object
itself carry no payload here. -/
inductive ClientException where
  | ExceptionThrownByHandler
  | ConsumerTooSlow
  | AbortedByServer
  | CancelledByClient
  | GrpcDeadlineExceeded
  | SSLError
  | ServiceUnavailable (details : String)
  | AlreadyExists (details : Option String)
  | NodeIsNotLeader
  | NotFound
  | MaximumSubscriptionsReached (details : String)
  | FailedPrecondition (details : Option String)
  | InternalError (details : Option String)
  | GrpcError
deriving DecidableEq

/-- `handle_rpc_error` (common.py lines 148-196). The source's `elif` chain
tests `e.code()` against pairwise-distinct status codes, so it is rendered as
a single match on the code; a guarded first test that fails (UNKNOWN without
the handler fingerprint, CANCELLED with other details) falls through the whole
chain to the final `GrpcError(e)`, which the corresponding match arm returns
directly. -/
def handle_rpc_error (e : RpcError) : ClientException :=
  if e.isCall then
    match e.code with
    | .unknown =>
      if strContains (pyStr e.details) "Exception was thrown by handler" then
        .ExceptionThrownByHandler
      else
        .GrpcError
    | .aborted =>
      match e.details with
      | some d => if strContains d "Consumer too slow" then .ConsumerTooSlow else .AbortedByServer
      | none => .AbortedByServer
    | .cancelled =>
      if e.details = some "Locally cancelled by application!" then
        .CancelledByClient
      else
        .GrpcError
    | .deadlineExceeded => .GrpcDeadlineExceeded
    | .unavailable =>
      let d := e.details.getD ""
      if strContains d "SSL_ERROR" then
        .SSLError
      else if strContains d "empty address list:" then
        .SSLError
      else
        .ServiceUnavailable d
    | .alreadyExists => .AlreadyExists e.details
    | .notFound =>
      if e.details = some "Leader info available" then .NodeIsNotLeader else .NotFound
    | .failedPrecondition =>
      match e.details with
      | some d =>
        if strStartsWith d "Maximum subscriptions reached" then
          .MaximumSubscriptionsReached d
        else
          .FailedPrecondition (some d)
      | none => .FailedPrecondition none
    | .internalError => .InternalError e.details
    | .otherCode _ => .GrpcError
  else
    .GrpcError

/-! ## `ESDBService._metadata` (lines 199-220)

Only the `NodePreference` option of the connection spec is consulted, so the
spec is embedded with just that field. Request metadata is a tuple of
key-value string pairs, modelled as a list. -/

structure ConnectionOptions where
  NodePreference : String
deriving DecidableEq

structure ConnectionSpec where
  options : ConnectionOptions
deriving DecidableEq

abbrev Metadata : Type := List (String × String)

structure ESDBService where
  connection_spec : ConnectionSpec
deriving DecidableEq

/-- `ESDBService._metadata(metadata, requires_leader=False)`. The
`requires_leader` parameter is a plain boolean whose default is `False`; the
embedding takes it explicitly. -/
def ESDBService.metadataOf (svc : ESDBService) (metadata : Option Metadata)
    (requires_leader : Bool) : Metadata :=
  let defaultValue :=
    if svc.connection_spec.options.NodePreference = "leader" then "true" else "false"
  let requires_leader_metadata : Metadata :=
    [("requires-leader", if requires_leader then "true" else defaultValue)]
  (metadata.getD []) ++ requires_leader_metadata

/-! ## The streamer registry (`GrpcStreamers`, lines 98-129)

The registry holds streamers in a `WeakValueDictionary` keyed by identity and
guarded by a mutex. State is modelled as an insertion-ordered association
list; lock usage and stop calls are modelled as an emitted event trace:
`__iter__` acquires the lock, copies the current values into a tuple,
releases the lock (end of the `with` block) and returns an iterator over that
copy, so `close` runs `stop` on the copied values only, outside the lock. -/

inductive RegistryEv (V : Type) where
  | acquire
  | release
  | stop (v : V)
deriving DecidableEq

structure GrpcStreamers (V : Type) where
  map : List (Nat × V)
deriving DecidableEq

/-- The values currently registered, in insertion order. -/
def GrpcStreamers.values {V : Type} (r : GrpcStreamers V) : List V :=
  r.map.map Prod.snd

/-- `__setitem__(key, value)`: dictionary assignment (replace in place when the
key exists, else append; Python dicts preserve insertion order). -/
def GrpcStreamers.setitem {V : Type} (r : GrpcStreamers V) (k : Nat) (v : V) :
    GrpcStreamers V :=
  if r.map.any (fun kv => kv.1 == k) then
    ⟨r.map.map (fun kv => if kv.1 == k then (k, v) else kv)⟩
  else
    ⟨r.map ++ [(k, v)]⟩

/-- Removal of a key: covers both `pop(key)` on a present key and the
disappearance of a weakly referenced entry at garbage collection. -/
def GrpcStreamers.removeKey {V : Type} (r : GrpcStreamers V) (k : Nat) :
    GrpcStreamers V :=
  ⟨r.map.filter (fun kv => kv.1 != k)⟩

/-- A state change that other threads or the garbage collector may apply to
the registry. -/
inductive RegistryOp (V : Type) where
  | set (k : Nat) (v : V)
  | remove (k : Nat)
deriving DecidableEq

def GrpcStreamers.applyOp {V : Type} (r : GrpcStreamers V) :
    RegistryOp V → GrpcStreamers V
  | .set k v => r.setitem k v
  | .remove k => r.removeKey k

/-- `__iter__` (lines 107-109): the lock events it emits, and the snapshot
tuple its returned iterator will yield. -/
def GrpcStreamers.iterRun {V : Type} (r : GrpcStreamers V) :
    List (RegistryEv V) × List V :=
  ([.acquire, .release], r.values)

/-- `SyncGrpcStreamers.close` (lines 117-121): iterate `__iter__`'s snapshot
and call `stop` on each streamer; the whole trace of the call. -/
def SyncGrpcStreamers.closeRun {V : Type} (r : GrpcStreamers V) :
    List (RegistryEv V) :=
  (GrpcStreamers.iterRun r).1 ++ ((GrpcStreamers.iterRun r).2).map .stop

/-- A close call during which other threads (or the garbage collector) apply
`ops` to the registry after `__iter__` has taken its snapshot: the trace of
the call, and the registry as the interleaved operations leave it. -/
def closeRunWith {V : Type} (r : GrpcStreamers V) (ops : List (RegistryOp V)) :
    List (RegistryEv V) × GrpcStreamers V :=
  ((GrpcStreamers.iterRun r).1 ++ ((GrpcStreamers.iterRun r).2).map .stop,
    ops.foldl GrpcStreamers.applyOp r)

/-- One step of lock accounting over a trace event. -/
def lockStep {V : Type} (acc : Int) : RegistryEv V → Int
  | .acquire => acc + 1
  | .release => acc - 1
  | .stop _ => acc

/-- Number of lock acquisitions minus releases over a trace. -/
def lockBalance {V : Type} (tr : List (RegistryEv V)) : Int :=
  tr.foldl lockStep 0

/-- The streamers stopped along a trace, in order. -/
def stopsOf {V : Type} (tr : List (RegistryEv V)) : List V :=
  tr.filterMap
    (fun ev =>
      match ev with
      | .stop v => some v
      | _ => none)

/-! ## Recorded-event construction (`construct_recorded_event`, lines 233-323) -/

/-- Python exceptions that the embedded code can raise. -/
inductive PyError where
  | AssertionError
  | ValueError
deriving DecidableEq

deriving instance DecidableEq for Except

def isHexDigitChar (c : Char) : Bool :=
  c.isDigit || ('a' ≤ c && c ≤ 'f') || ('A' ≤ c && c ≤ 'F')

def hexVal (c : Char) : Nat :=
  if c.isDigit then c.toNat - 48
  else if 'a' ≤ c && c ≤ 'f' then c.toNat - 87
  else c.toNat - 55

/-- Worker for `removeAll`; the fuel bounds the number of steps and never
runs out when it starts at the length of the list. -/
def removeAllGo (pat : List Char) : Nat → List Char → List Char
  | _, [] => []
  | 0, l => l
  | fuel + 1, c :: rest =>
    if pat ≠ [] ∧ pat.isPrefixOf (c :: rest) then
      removeAllGo pat fuel (rest.drop (pat.length - 1))
    else
      c :: removeAllGo pat fuel rest

/-- Remove every (non-overlapping, leftmost-first) occurrence of `pat`.
Models Python `str.replace(pat, "")` for a non-empty pattern. -/
def removeAll (pat : List Char) (l : List Char) : List Char :=
  removeAllGo pat l.length l

/-- Python `str.strip("\x7b\x7d")`: drop leading and trailing braces. -/
def stripBraces (l : List Char) : List Char :=
  ((l.dropWhile fun c => c == '{' || c == '}').reverse.dropWhile
      fun c => c == '{' || c == '}').reverse

/-- The standard library constructor `uuid.UUID(hex)`: strip the `urn:` and
`uuid:` markers, surrounding braces and hyphens, then require exactly 32
hexadecimal digits; `none` models the `ValueError` it otherwise raises. -/
def pyUUID (s : String) : Option Nat :=
  let cs := removeAll "uuid:".toList (removeAll "urn:".toList s.toList)
  let cs := (stripBraces cs).filter (fun c => c != '-')
  if cs.length == 32 && cs.all isHexDigitChar then
    some (cs.foldl (fun acc c => 16 * acc + hexVal c) 0)
  else
    none

def digitsToNat (l : List Char) : Nat :=
  l.foldl (fun acc c => 10 * acc + (c.toNat - 48)) 0

/-- Python `int(s)` on a string: optional surrounding whitespace, optional
sign, at least one decimal digit; `none` models the `ValueError` raised
otherwise. -/
def pyIntParse (s : String) : Option Int :=
  let cs := (s.toList.dropWhile Char.isWhitespace).reverse.dropWhile
    Char.isWhitespace |>.reverse
  match cs with
  | '-' :: rest =>
    if rest ≠ [] ∧ rest.all Char.isDigit then some (-(digitsToNat rest : Int)) else none
  | '+' :: rest =>
    if rest ≠ [] ∧ rest.all Char.isDigit then some (digitsToNat rest : Int) else none
  | rest =>
    if rest ≠ [] ∧ rest.all Char.isDigit then some (digitsToNat rest : Int) else none

/-- Lookup with default on a protobuf `map<string, string>` field: Python
`m.get(key, default)`. -/
def mapGet (m : List (String × String)) (k d : String) : String :=
  match m.find? (fun kv => kv.1 == k) with
  | some kv => kv.2
  | none => d

/-- The protobuf `ReadResp.ReadEvent.RecordedEvent` message, with the fields
`construct_recorded_event` reads. `id_string` is `id.string` (the empty
string when the sub-message is unset), `stream_name` is the utf8-decoded
`stream_identifier.stream_name`, and `metadata` is the `map<string,string>`
metadata field. Bytes fields are carried as strings. -/
structure RecordedEventProto where
  id_string : String
  metadata : List (String × String)
  custom_metadata : String
  data : String
  stream_name : String
  stream_revision : Nat
  commit_position : Nat
deriving DecidableEq

/-- The protobuf oneof `position` of `ReadResp.ReadEvent`. -/
inductive PositionOneof where
  | commit_position
  | no_position
  | unset
deriving DecidableEq

/-- Which generated message type the read event is: `streams_pb2` or
`persistent_pb2` (the latter carries the `retry_count` field). -/
inductive ReadEventSource where
  | streams
  | persistent (retry_count : Nat)
deriving DecidableEq

structure ReadEvent where
  event : RecordedEventProto
  link : RecordedEventProto
  position : PositionOneof
  source : ReadEventSource
deriving DecidableEq

/-- The fields of the `RecordedEvent` value constructed for a resolved link
(lines 289-300); the constructor call passes no `link`, so the link record
carries none. `id` is the numeric value of the parsed UUID and `recorded_at`
the parsed 100-ns tick count (the wall-clock conversion of the tick count is
outside every claim and is not modelled). -/
structure RecordedEventData where
  id : Nat
  type : String
  data : String
  metadata : String
  content_type : String
  stream_name : String
  stream_position : Nat
  commit_position : Option Nat
  retry_count : Option Nat
  recorded_at : Option Int
deriving DecidableEq

/-- The `RecordedEvent` value constructed at lines 310-322. -/
structure RecordedEvent where
  id : Nat
  type : String
  data : String
  metadata : String
  content_type : String
  stream_name : String
  stream_position : Nat
  commit_position : Option Nat
  retry_count : Option Nat
  link : Option RecordedEventData
  recorded_at : Option Int
deriving DecidableEq

/-- `construct_recorded_event` (lines 233-323). `.ok none` is the early
`return None` on an empty event id; `.error .AssertionError` is the failing
`assert position_oneof == "no_position"` when the oneof is unset;
`.error .ValueError` is an uncaught `ValueError` from `UUID(...)`. The
`recorded_at` of the link is computed (as in the source, lines 282-285) from
the metadata of the resolved EVENT, not of the link. -/
def construct_recorded_event (read_event : ReadEvent) :
    Except PyError (Option RecordedEvent) :=
  let event := read_event.event
  let link := read_event.link
  if event.id_string = "" then
    .ok none
  else
    let ignoreRes : Except PyError Bool :=
      match read_event.position with
      | .commit_position => .ok false
      | .no_position => .ok true
      | .unset => .error .AssertionError
    ignoreRes.bind fun ignore_commit_position =>
      let retry_count : Option Nat :=
        match read_event.source with
        | .persistent n => some n
        | .streams => none
      let linkRes : Except PyError (Option RecordedEventData) :=
        if link.id_string = "" then
          .ok none
        else
          let recorded_at := pyIntParse (mapGet event.metadata "created" "")
          match pyUUID link.id_string with
          | none => .error .ValueError
          | some u =>
            .ok (some
              { id := u
                type := mapGet link.metadata "type" ""
                data := link.data
                metadata := link.custom_metadata
                content_type := mapGet link.metadata "content-type" ""
                stream_name := link.stream_name
                stream_position := link.stream_revision
                commit_position :=
                  if ignore_commit_position then none else some link.commit_position
                retry_count := retry_count
                recorded_at := recorded_at })
      linkRes.bind fun recorded_event_link =>
        let recorded_at := pyIntParse (mapGet event.metadata "created" "")
        match pyUUID event.id_string with
        | none => .error .ValueError
        | some u =>
          .ok (some
            { id := u
              type := mapGet event.metadata "type" ""
              data := event.data
              metadata := event.custom_metadata
              content_type := mapGet event.metadata "content-type" ""
              stream_name := event.stream_name
              stream_position := event.stream_revision
              commit_position :=
                if ignore_commit_position then none else some event.commit_position
              retry_count := retry_count
              link := recorded_event_link
              recorded_at := recorded_at })

/-! ## Filter regex construction (lines 223-230)

The two constructors build pattern strings; their semantics is given by a
parse tree (`Rx`) for the regex fragment they emit, together with a matcher.
In the emitted dialect alternation binds loosest, so in `^p1|p2|...|pn$` the
`^` anchors only the first alternative and the `$` only the last. -/

/-- Python `"|".join(strings)`. -/
def joinBar : List String → String
  | [] => ""
  | [p] => p
  | p :: rest => p ++ "|" ++ joinBar rest

/-- `construct_filter_include_regex` (lines 223-225); the `isinstance(str)`
branch merely coerces a single string to a one-element sequence, so the
embedding takes the sequence. -/
def construct_filter_include_regex (patterns : List String) : String :=
  "^" ++ joinBar patterns ++ "$"

/-- `construct_filter_exclude_regex` (lines 228-230). -/
def construct_filter_exclude_regex (patterns : List String) : String :=
  "^(?!(" ++ joinBar (patterns.map (fun s => s ++ "$")) ++ "))"

/-- Abstract syntax of the regex fragment the filter constructors emit:
literal characters, concatenation, alternation, the two anchors, capturing
groups and negative lookahead. -/
inductive Rx where
  | eps
  | char (c : Char)
  | seq (a b : Rx)
  | alt (a b : Rx)
  | bol
  | eol
  | group (a : Rx)
  | nlook (a : Rx)
deriving DecidableEq

/-- Concrete regex text of a parse tree. On the trees below this is exactly
the string built by the corresponding filter constructor. -/
def Rx.print : Rx → String
  | .eps => ""
  | .char c => String.singleton c
  | .seq a b => a.print ++ b.print
  | .alt a b => a.print ++ "|" ++ b.print
  | .bol => "^"
  | .eol => "$"
  | .group a => "(" ++ a.print ++ ")"
  | .nlook a => "(?!" ++ a.print ++ ")"

/-- All end positions of matches of a regex starting at position `i` of the
full input (needed in full because `^`, `$` and lookahead are assertions on
absolute positions). -/
def Rx.runs (full : List Char) : Rx → Nat → List Nat
  | .eps, i => [i]
  | .char c, i => if full.get? i = some c then [i + 1] else []
  | .seq a b, i => (Rx.runs full a i).flatMap (Rx.runs full b)
  | .alt a b, i => Rx.runs full a i ++ Rx.runs full b i
  | .bol, i => if i = 0 then [i] else []
  | .eol, i => if i = full.length then [i] else []
  | .group a, i => Rx.runs full a i
  | .nlook a, i => if (Rx.runs full a i).isEmpty then [i] else []

/-- Unanchored search, the way the stored filter regex is applied to a
candidate string (Python `re.search`): some start position admits a match. -/
def Rx.searchB (r : Rx) (s : String) : Bool :=
  (List.range (s.toList.length + 1)).any (fun i => !(Rx.runs s.toList r i).isEmpty)

/-- A sequence of literal characters as a parse tree. -/
def litRx (p : List Char) : Rx :=
  p.foldr (fun c acc => .seq (.char c) acc) .eps

/-- Alternatives two to n of the include regex: the middle ones are bare
literals, the last one carries the trailing `$`. -/
def includeRxTail : List (List Char) → Rx
  | [] => .eol
  | [p] => .seq (litRx p) .eol
  | p :: rest => .alt (litRx p) (includeRxTail rest)

/-- Parse tree of `construct_filter_include_regex`'s output for
alternation-free patterns: under loosest-binding alternation, the string
"^p1|p2|...|pn$" is the alternation of `^p1`, the bare middle patterns, and
`pn$` (with both anchors on the single alternative when n = 1). -/
def includeRx : List (List Char) → Rx
  | [] => .seq .bol .eol
  | [p] => .seq .bol (.seq (litRx p) .eol)
  | p :: rest => .alt (.seq .bol (litRx p)) (includeRxTail rest)

def altListOf : List Rx → Rx
  | [] => .eps
  | [r] => r
  | r :: rest => .alt r (altListOf rest)

/-- Parse tree of `construct_filter_exclude_regex`'s output
"^(?!(p1$|p2$|...|pn$))": a `^` anchor followed by a negative lookahead over
the group of per-pattern `pi$` alternatives. -/
def excludeRx (ps : List (List Char)) : Rx :=
  .seq .bol (.nlook (.group (altListOf (ps.map (fun p => .seq (litRx p) .eol)))))

/-- Position `i ≤ s.length` at which `p` occurs contiguously in `s`. -/
def occursIn (p s : List Char) : Bool :=
  (List.range (s.length + 1)).any (fun i => p.isPrefixOf (s.drop i))

/-- The language the include regex actually matches under search semantics,
for two or more alternation-free patterns: the first pattern anchored at the
start only, middle patterns unanchored, the last anchored at the end only
(and exact equality in the one-pattern case). -/
def includeTailSpec : List (List Char) → List Char → Bool
  | [], _ => false
  | [p], s => p.isSuffixOf s
  | p :: rest, s => occursIn p s || includeTailSpec rest s

def includeSearchSpec : List (List Char) → List Char → Bool
  | [], _ => false
  | [p], s => p == s
  | p :: rest, s => p.isPrefixOf s || includeTailSpec rest s

/-- Characters that are metacharacters in the emitted regex dialect; the
semantic theorems below are stated for patterns free of them, which the
parse trees treat as literal text. -/
def regexMetaChars : List Char :=
  ['^', '$', '|', '(', ')', '?', '!', '*', '+', '.', '[', ']', '\\', '\x7b', '\x7d']

def plainPat (p : List Char) : Bool :=
  p.all (fun c => !(regexMetaChars.contains c))

/-! ## Theorems -/

/-- C8: the client's default option values: catch-up subscription window size
30 and checkpoint interval multiplier 5; persistent-subscription ack batcher
maximum batch size 50, maximum ack delay 0.2 seconds (the rational 1/5) and
stopping grace 0.2 seconds. -/
theorem default_option_values :
    DEFAULT_WINDOW_SIZE = 30 ∧
    DEFAULT_CHECKPOINT_INTERVAL_MULTIPLIER = 5 ∧
    DEFAULT_PERSISTENT_SUBSCRIPTION_MAX_ACK_BATCH_SIZE = 50 ∧
    DEFAULT_PERSISTENT_SUBSCRIPTION_MAX_ACK_DELAY = 1 / 5 ∧
    DEFAULT_PERSISTENT_SUBSCRIPTION_STOPPING_GRACE = 1 / 5 := by
  refine ⟨rfl, rfl, rfl, ?_, ?_⟩ <;>
    norm_num [DEFAULT_PERSISTENT_SUBSCRIPTION_MAX_ACK_DELAY,
      DEFAULT_PERSISTENT_SUBSCRIPTION_STOPPING_GRACE]

/-- C1 (counterexample): with NodePreference = "leader", a call-site override
of `false` yields the `requires-leader` value "true", not the "false" the
claim requires for an explicit override of false (the parameter's default is
`False`, so an explicit false is indistinguishable from no override). -/
theorem requires_leader_false_override_counterexample :
    ESDBService.metadataOf ⟨⟨⟨"leader"⟩⟩⟩ (some []) false
        = [("requires-leader", "true")] ∧
    ESDBService.metadataOf ⟨⟨⟨"leader"⟩⟩⟩ (some []) false
        ≠ [("requires-leader", "false")] := by
  exact ⟨rfl, by decide⟩

/-- C1 (amended): `_metadata` returns the given metadata extended with exactly
one ('requires-leader', v) pair, where v is "true" when the call-site
requires_leader flag is true, and otherwise (flag false, which is also the
default) is "true" iff NodePreference is "leader" and "false" otherwise. -/
theorem metadataOf_requires_leader (svc : ESDBService) (m : Option Metadata)
    (b : Bool) :
    (∃ v, svc.metadataOf m b = (m.getD []) ++ [("requires-leader", v)] ∧
        (b = true → v = "true") ∧
        (b = false →
          v = if svc.connection_spec.options.NodePreference = "leader"
              then "true" else "false")) ∧
    ((svc.metadataOf m b).countP (fun kv => kv.1 == "requires-leader"))
        = ((m.getD []).countP (fun kv => kv.1 == "requires-leader")) + 1 := by
  cases b with
  | false =>
    refine ⟨⟨if svc.connection_spec.options.NodePreference = "leader"
        then "true" else "false", rfl, fun h => by simp at h, fun _ => rfl⟩, ?_⟩
    simp [ESDBService.metadataOf, List.countP_append, List.countP_cons]
  | true =>
    refine ⟨⟨"true", rfl, fun _ => rfl, fun h => by simp at h⟩, ?_⟩
    simp [ESDBService.metadataOf, List.countP_append, List.countP_cons]

/-- C1 (witness): the amended statement evaluated at NodePreference "follower",
one existing metadata pair and no override. -/
theorem metadataOf_requires_leader_witness :
    (∃ v, ESDBService.metadataOf ⟨⟨⟨"follower"⟩⟩⟩ (some [("a", "b")]) false
        = ((some [("a", "b")] : Option Metadata).getD [])
            ++ [("requires-leader", v)] ∧
        (false = true → v = "true") ∧
        (false = false →
          v = if (ESDBService.mk ⟨⟨"follower"⟩⟩).connection_spec.options.NodePreference
                = "leader" then "true" else "false")) ∧
    ((ESDBService.metadataOf ⟨⟨⟨"follower"⟩⟩⟩ (some [("a", "b")]) false).countP
        (fun kv => kv.1 == "requires-leader"))
        = (((some [("a", "b")] : Option Metadata).getD []).countP
            (fun kv => kv.1 == "requires-leader")) + 1 :=
  metadataOf_requires_leader ⟨⟨⟨"follower"⟩⟩⟩ (some [("a", "b")]) false

/-- C2 (counterexample): an UNAVAILABLE error whose details contain the
fingerprint "empty address list" but not the source's "empty address list:"
(trailing colon) is translated to ServiceUnavailable, not SSLError. -/
theorem unavailable_empty_address_list_counterexample :
    strContains "empty address list" "empty address list" = true ∧
    handle_rpc_error ⟨true, .unavailable, some "empty address list"⟩
        = .ServiceUnavailable "empty address list" ∧
    handle_rpc_error ⟨true, .unavailable, some "empty address list"⟩
        ≠ .SSLError := by
  decide

/-- C2 (amended): for an UNAVAILABLE call error, details containing
"SSL_ERROR", or containing "empty address list:" (with the trailing colon),
yield SSLError; any other UNAVAILABLE error (absent details included, which
are replaced by the empty string) yields ServiceUnavailable carrying the
details string. -/
theorem handle_unavailable (e : RpcError) (hc : e.isCall = true)
    (hk : e.code = .unavailable) :
    (strContains (e.details.getD "") "SSL_ERROR" = true →
        handle_rpc_error e = .SSLError) ∧
    (strContains (e.details.getD "") "empty address list:" = true →
        handle_rpc_error e = .SSLError) ∧
    (strContains (e.details.getD "") "SSL_ERROR" = false →
      strContains (e.details.getD "") "empty address list:" = false →
        handle_rpc_error e = .ServiceUnavailable (e.details.getD "")) := by
  refine ⟨fun h => ?_, fun h => ?_, fun h1 h2 => ?_⟩
  · simp [handle_rpc_error, hc, hk, h]
  · simp [handle_rpc_error, hc, hk, h, ite_self]
  · simp [handle_rpc_error, hc, hk, h1, h2]

/-- C2 (witness): the amended statement evaluated on a details string that
contains "SSL_ERROR". -/
theorem handle_unavailable_witness :
    handle_rpc_error ⟨true, .unavailable, some "an SSL_ERROR occurred"⟩
        = .SSLError :=
  (handle_unavailable ⟨true, .unavailable, some "an SSL_ERROR occurred"⟩
      rfl rfl).1 (by decide)

/-- C4 (counterexample): a CANCELLED error whose details are exactly the
claimed fingerprint "Locally cancelled by application" (without the source's
trailing exclamation mark) is translated to the generic GrpcError, not
CancelledByClient. -/
theorem cancelled_fingerprint_counterexample :
    strContains "Locally cancelled by application"
        "Locally cancelled by application" = true ∧
    handle_rpc_error ⟨true, .cancelled, some "Locally cancelled by application"⟩
        = .GrpcError := by
  decide

/-- C4 (amended): a CANCELLED call error is translated to CancelledByClient
exactly when its details equal the string "Locally cancelled by
application!" (note the exclamation mark); any other CANCELLED error falls
through to GrpcError. -/
theorem handle_cancelled (e : RpcError) (hc : e.isCall = true)
    (hk : e.code = .cancelled) :
    (e.details = some "Locally cancelled by application!" →
        handle_rpc_error e = .CancelledByClient) ∧
    (e.details ≠ some "Locally cancelled by application!" →
        handle_rpc_error e = .GrpcError) := by
  refine ⟨fun h => ?_, fun h => ?_⟩ <;> simp [handle_rpc_error, hc, hk, h]

/-- C4 (witness): the amended statement evaluated on the exact details
string. -/
theorem handle_cancelled_witness :
    handle_rpc_error
        ⟨true, .cancelled, some "Locally cancelled by application!"⟩
        = .CancelledByClient :=
  (handle_cancelled ⟨true, .cancelled, some "Locally cancelled by application!"⟩
      rfl rfl).1 rfl

/-- C5 (counterexample): a FAILED_PRECONDITION error whose details contain
the fingerprint "Maximum subscriptions reached" but do not start with it is
translated to FailedPrecondition, not MaximumSubscriptionsReached. -/
theorem failed_precondition_fingerprint_counterexample :
    strContains "error: Maximum subscriptions reached"
        "Maximum subscriptions reached" = true ∧
    handle_rpc_error
        ⟨true, .failedPrecondition, some "error: Maximum subscriptions reached"⟩
        = .FailedPrecondition (some "error: Maximum subscriptions reached") := by
  decide

/-- C5 (amended): a FAILED_PRECONDITION call error whose details START WITH
"Maximum subscriptions reached" is translated to the dedicated
MaximumSubscriptionsReached carrying the details; every other
FAILED_PRECONDITION error (including absent details) becomes
FailedPrecondition carrying the optional details. -/
theorem handle_failed_precondition (e : RpcError) (hc : e.isCall = true)
    (hk : e.code = .failedPrecondition) :
    (∀ d, e.details = some d → strStartsWith d "Maximum subscriptions reached" = true →
        handle_rpc_error e = .MaximumSubscriptionsReached d) ∧
    (∀ d, e.details = some d → strStartsWith d "Maximum subscriptions reached" = false →
        handle_rpc_error e = .FailedPrecondition (some d)) ∧
    (e.details = none → handle_rpc_error e = .FailedPrecondition none) := by
  refine ⟨fun d hd h => ?_, fun d hd h => ?_, fun hd => ?_⟩
  · simp [handle_rpc_error, hc, hk, hd, h]
  · simp [handle_rpc_error, hc, hk, hd, h]
  · simp [handle_rpc_error, hc, hk, hd]

/-- C5 (witness): the amended statement evaluated on details that start with
the fingerprint. -/
theorem handle_failed_precondition_witness :
    handle_rpc_error
        ⟨true, .failedPrecondition, some "Maximum subscriptions reached."⟩
        = .MaximumSubscriptionsReached "Maximum subscriptions reached." :=
  (handle_failed_precondition
      ⟨true, .failedPrecondition, some "Maximum subscriptions reached."⟩
      rfl rfl).1 "Maximum subscriptions reached." rfl (by decide)

/-- C9: `handle_rpc_error` is a total function into the client exception
type; an error that is not a call error maps to the generic GrpcError, as
does a call error whose status code and details match no fingerprint:
UNKNOWN without the handler-exception detail, CANCELLED with any other
details, and every status code the translator never tests for. -/
theorem handle_rpc_error_total (e : RpcError) :
    (e.isCall = false → handle_rpc_error e = .GrpcError) ∧
    (e.code = .unknown →
      strContains (pyStr e.details) "Exception was thrown by handler" = false →
        handle_rpc_error e = .GrpcError) ∧
    (e.code = .cancelled → e.details ≠ some "Locally cancelled by application!" →
        handle_rpc_error e = .GrpcError) ∧
    (∀ s, e.code = .otherCode s → handle_rpc_error e = .GrpcError) := by
  refine ⟨fun h => ?_, fun hk h => ?_, fun hk h => ?_, fun s hk => ?_⟩
  · simp [handle_rpc_error, h]
  · cases hic : e.isCall with
    | false => simp [handle_rpc_error, hic]
    | true => simp [handle_rpc_error, hic, hk, h]
  · cases hic : e.isCall with
    | false => simp [handle_rpc_error, hic]
    | true => simp [handle_rpc_error, hic, hk, h]
  · cases hic : e.isCall with
    | false => simp [handle_rpc_error, hic]
    | true => simp [handle_rpc_error, hic, hk]

/-- C9 (witness): a non-call error is wrapped in GrpcError. -/
theorem handle_rpc_error_total_witness :
    handle_rpc_error ⟨false, .unknown, none⟩ = .GrpcError :=
  (handle_rpc_error_total ⟨false, .unknown, none⟩).1 rfl

/-- Stop events leave the lock balance unchanged. -/
theorem foldl_lockStep_stops {V : Type} (vs : List V) (acc : Int) :
    (vs.map RegistryEv.stop).foldl lockStep acc = acc := by
  induction vs generalizing acc with
  | nil => rfl
  | cons v vs ih => simpa [lockStep] using ih acc

/-- A pure stop trace stops exactly its streamers, in order. -/
theorem stopsOf_map_stop {V : Type} (vs : List V) :
    stopsOf (vs.map RegistryEv.stop) = vs := by
  induction vs with
  | nil => rfl
  | cons v vs ih =>
    simp only [List.map_cons, stopsOf, List.filterMap_cons] at ih ⊢
    simpa using ih

/-- C6: `__iter__` snapshots the registered streamers under the lock and
iterates the copy: `close` stops exactly the values registered at snapshot
time, registry operations interleaved after the snapshot leave the close
trace (hence the yielded sequence) unchanged, the lock is taken and released
around the snapshot, and every `stop` happens while the lock balance is
zero, i.e. outside the mutex. -/
theorem registry_close_snapshot {V : Type} (r : GrpcStreamers V)
    (ops : List (RegistryOp V)) (j : Nat) (w : V) :
    stopsOf (SyncGrpcStreamers.closeRun r) = r.values ∧
    (closeRunWith r ops).1 = SyncGrpcStreamers.closeRun r ∧
    (SyncGrpcStreamers.closeRun r).get? 0 = some .acquire ∧
    (SyncGrpcStreamers.closeRun r).get? 1 = some .release ∧
    ((SyncGrpcStreamers.closeRun r).get? j = some (.stop w) →
      lockBalance ((SyncGrpcStreamers.closeRun r).take j) = 0) := by
  refine ⟨?_, rfl, rfl, rfl, fun hj => ?_⟩
  · simp only [SyncGrpcStreamers.closeRun, GrpcStreamers.iterRun, stopsOf,
      List.cons_append, List.nil_append, List.filterMap_cons]
    simpa [stopsOf] using stopsOf_map_stop r.values
  · match j with
    | 0 =>
      simp [SyncGrpcStreamers.closeRun, GrpcStreamers.iterRun] at hj
    | 1 =>
      simp [SyncGrpcStreamers.closeRun, GrpcStreamers.iterRun] at hj
    | (k + 2) =>
      simp only [SyncGrpcStreamers.closeRun, GrpcStreamers.iterRun,
        List.cons_append, List.nil_append, List.take_succ_cons, lockBalance,
        List.foldl_cons]
      rw [← List.map_take]
      exact foldl_lockStep_stops _ _

/-- C6 (witness): a registry holding one streamer; the third trace event is
its stop, executed at lock balance zero. -/
theorem registry_close_snapshot_witness :
    lockBalance ((SyncGrpcStreamers.closeRun (⟨[(1, 5)]⟩ : GrpcStreamers Nat)).take 2)
        = 0 :=
  (registry_close_snapshot (⟨[(1, 5)]⟩ : GrpcStreamers Nat) [] 2 5).2.2.2.2 (by decide)

/-- Inversion for `Except.bind` producing a success. -/
theorem except_bind_ok {α β : Type} (x : Except PyError α) (f : α → Except PyError β)
    (b : β) (h : x.bind f = Except.ok b) :
    ∃ a, x = .ok a ∧ f a = .ok b := by
  cases x with
  | error e => simp [Except.bind] at h
  | ok a => exact ⟨a, rfl, h⟩

/-- C7: whenever `construct_recorded_event` returns a RecordedEvent, its
retry count is the server-supplied `retry_count` field exactly when the input
is a persistent-subscription ReadEvent, and None for a streams ReadEvent. -/
theorem construct_recorded_event_retry_count (re : ReadEvent) (ev : RecordedEvent)
    (h : construct_recorded_event re = .ok (some ev)) :
    ev.retry_count
      = match re.source with
        | .persistent n => some n
        | .streams => none := by
  obtain ⟨ev0, lk0, pos, src⟩ := re
  simp only [construct_recorded_event] at h
  by_cases hid : ev0.id_string = ""
  · rw [if_pos hid] at h
    exact absurd h (by simp)
  · rw [if_neg hid] at h
    cases pos with
    | unset => simp [Except.bind] at h
    | commit_position =>
      obtain ⟨icp, hicp, h⟩ := except_bind_ok _ _ _ h
      obtain ⟨lnk, hlnk, h⟩ := except_bind_ok _ _ _ h
      cases hpu : pyUUID ev0.id_string with
      | none =>
        rw [hpu] at h
        simp at h
      | some u =>
        rw [hpu] at h
        simp only [Except.ok.injEq, Option.some.injEq] at h
        subst h
        rfl
    | no_position =>
      obtain ⟨icp, hicp, h⟩ := except_bind_ok _ _ _ h
      obtain ⟨lnk, hlnk, h⟩ := except_bind_ok _ _ _ h
      cases hpu : pyUUID ev0.id_string with
      | none =>
        rw [hpu] at h
        simp at h
      | some u =>
        rw [hpu] at h
        simp only [Except.ok.injEq, Option.some.injEq] at h
        subst h
        rfl

/-- C7 (witness): a persistent-subscription read event with retry count 3
produces a recorded event whose retry count is 3. -/
theorem construct_recorded_event_retry_count_witness :
    (RecordedEvent.mk 0 "" "" "" "" "" 0 (some 0) (some 3) none none).retry_count
      = some 3 :=
  (construct_recorded_event_retry_count
      (ReadEvent.mk
        (RecordedEventProto.mk "00000000000000000000000000000000" [] "" "" "" 0 0)
        (RecordedEventProto.mk "" [] "" "" "" 0 0)
        .commit_position (.persistent 3))
      (RecordedEvent.mk 0 "" "" "" "" "" 0 (some 0) (some 3) none none)
      (by decide)).trans rfl

/-- C10: `construct_recorded_event` returns None (not a RecordedEvent) on an
input whose recorded-event identifier string is empty, and it constructs a
RecordedEvent only when that identifier is a non-empty string accepted by
the UUID constructor. -/
theorem construct_recorded_event_empty_id (re : ReadEvent) :
    (re.event.id_string = "" → construct_recorded_event re = .ok none) ∧
    (∀ ev, construct_recorded_event re = .ok (some ev) →
      re.event.id_string ≠ "" ∧ pyUUID re.event.id_string ≠ none) := by
  obtain ⟨ev0, lk0, pos, src⟩ := re
  constructor
  · intro h
    replace h : ev0.id_string = "" := h
    simp [construct_recorded_event, h]
  · intro ev h
    simp only [construct_recorded_event] at h
    by_cases hid : ev0.id_string = ""
    · rw [if_pos hid] at h
      exact absurd h (by simp)
    · rw [if_neg hid] at h
      refine ⟨hid, fun hu => ?_⟩
      cases pos with
      | unset => simp [Except.bind] at h
      | commit_position =>
        obtain ⟨icp, hicp, h⟩ := except_bind_ok _ _ _ h
        obtain ⟨lnk, hlnk, h⟩ := except_bind_ok _ _ _ h
        rw [hu] at h
        simp at h
      | no_position =>
        obtain ⟨icp, hicp, h⟩ := except_bind_ok _ _ _ h
        obtain ⟨lnk, hlnk, h⟩ := except_bind_ok _ _ _ h
        rw [hu] at h
        simp at h

/-- C10 (witness): the empty-identifier branch evaluated on a concrete read
event. -/
theorem construct_recorded_event_empty_id_witness :
    construct_recorded_event
        (ReadEvent.mk (RecordedEventProto.mk "" [] "" "" "" 0 0)
          (RecordedEventProto.mk "" [] "" "" "" 0 0) .commit_position .streams)
      = .ok none :=
  (construct_recorded_event_empty_id
      (ReadEvent.mk (RecordedEventProto.mk "" [] "" "" "" 0 0)
        (RecordedEventProto.mk "" [] "" "" "" 0 0) .commit_position .streams)).1 rfl

theorem litRx_cons (c : Char) (p : List Char) :
    litRx (c :: p) = .seq (.char c) (litRx p) := rfl

/-- Head-and-tail characterization of a prefix of a drop. -/
theorem cons_prefix_drop (c : Char) (p full : List Char) (i : Nat) :
    (c :: p) <+: full.drop i ↔ full.get? i = some c ∧ p <+: full.drop (i + 1) := by
  induction full generalizing i with
  | nil =>
    simp [List.drop_nil, List.get?]
  | cons a t ih =>
    cases i with
    | zero =>
      simp only [List.drop_zero, List.get?, List.drop_succ_cons, List.drop_zero,
        List.cons_prefix_cons, Option.some.injEq]
      constructor
      · rintro ⟨rfl, hp⟩
        exact ⟨rfl, hp⟩
      · rintro ⟨rfl, hp⟩
        exact ⟨rfl, hp⟩
    | succ j =>
      simpa [List.drop_succ_cons, List.get?] using ih j

/-- End positions of a literal pattern: the single full-length advance when
the pattern occurs at the start position, nothing otherwise. -/
theorem litRx_runs (p full : List Char) (i : Nat) :
    Rx.runs full (litRx p) i
      = if p <+: full.drop i then [i + p.length] else [] := by
  induction p generalizing i with
  | nil =>
    simp [litRx, Rx.runs, List.nil_prefix]
  | cons c p ih =>
    rw [litRx_cons]
    simp only [Rx.runs]
    by_cases h : full.get? i = some c
    · rw [if_pos h]
      simp only [List.flatMap_cons, List.flatMap_nil, List.append_nil]
      rw [ih (i + 1)]
      by_cases hp : p <+: full.drop (i + 1)
      · rw [if_pos hp, if_pos ((cons_prefix_drop c p full i).mpr ⟨h, hp⟩)]
        congr 1
        simp only [List.length_cons]
        omega
      · rw [if_neg hp, if_neg (fun hc => hp ((cons_prefix_drop c p full i).mp hc).2)]
    · rw [if_neg h]
      simp only [List.flatMap_nil]
      rw [if_neg (fun hc => h ((cons_prefix_drop c p full i).mp hc).1)]

/-- A regex led by the start anchor is searched only at position zero. -/
theorem searchB_bol_seq (X : Rx) (s : String) :
    Rx.searchB (.seq .bol X) s = !(Rx.runs s.toList X 0).isEmpty := by
  have hruns : ∀ i, Rx.runs s.toList (.seq .bol X) i
      = if i = 0 then Rx.runs s.toList X 0 else [] := by
    intro i
    simp only [Rx.runs]
    by_cases h : i = 0
    · subst h
      simp
    · simp [h]
  rw [Bool.eq_iff_iff]
  simp only [Rx.searchB, List.any_eq_true, List.mem_range, hruns]
  constructor
  · rintro ⟨i, hi, hf⟩
    by_cases h : i = 0
    · subst h
      simpa using hf
    · simp [h] at hf
  · intro hX
    exact ⟨0, Nat.succ_pos _, by simpa using hX⟩

/-- Search distributes over alternation. -/
theorem searchB_alt (a b : Rx) (s : String) :
    Rx.searchB (.alt a b) s = (Rx.searchB a s || Rx.searchB b s) := by
  rw [Bool.eq_iff_iff]
  simp only [Rx.searchB, List.any_eq_true, List.mem_range, Rx.runs,
    Bool.or_eq_true, Bool.not_eq_true', List.isEmpty_eq_false, ne_eq,
    List.append_eq_nil]
  constructor
  · rintro ⟨i, hi, hf⟩
    rw [not_and_or] at hf
    rcases hf with hf | hf
    · exact Or.inl ⟨i, hi, hf⟩
    · exact Or.inr ⟨i, hi, hf⟩
  · rintro (⟨i, hi, hf⟩ | ⟨i, hi, hf⟩)
    · exact ⟨i, hi, fun hc => hf hc.1⟩
    · exact ⟨i, hi, fun hc => hf hc.2⟩

/-- End positions of a literal pattern followed by the end anchor. -/
theorem runs_lit_eol (p full : List Char) (i : Nat) :
    Rx.runs full (.seq (litRx p) .eol) i
      = if i + p.length = full.length ∧ p <+: full.drop i
        then [full.length] else [] := by
  simp only [Rx.runs, litRx_runs]
  by_cases h : p <+: full.drop i
  · rw [if_pos h]
    simp only [List.flatMap_cons, List.flatMap_nil, List.append_nil, Rx.runs]
    by_cases h2 : i + p.length = full.length
    · rw [if_pos h2, if_pos ⟨h2, h⟩, h2]
    · rw [if_neg h2, if_neg (fun hc => h2 hc.1)]
  · rw [if_neg h]
    simp only [List.flatMap_nil]
    rw [if_neg (fun hc => h hc.2)]

/-- Runs of a non-empty n-ary alternation are the union of the runs of the
parts. -/
theorem altListOf_runs (r : Rx) (rest : List Rx) (full : List Char) (i : Nat) :
    Rx.runs full (altListOf (r :: rest)) i
      = (r :: rest).flatMap (fun x => Rx.runs full x i) := by
  induction rest generalizing r with
  | nil => simp [altListOf]
  | cons r2 rest2 ih =>
    simp only [altListOf, Rx.runs, List.flatMap_cons]
    rw [ih r2]
    simp [List.flatMap_cons]

/-- A literal pattern followed by the end anchor matches from position zero
exactly when it equals the whole input. -/
theorem lit_eol_zero_ne (p full : List Char) :
    Rx.runs full (.seq (litRx p) .eol) 0 ≠ [] ↔ p = full := by
  rw [runs_lit_eol]
  by_cases h : 0 + p.length = full.length ∧ p <+: full.drop 0
  · rw [if_pos h]
    obtain ⟨hl, hp⟩ := h
    rw [List.drop_zero] at hp
    simp only [ne_eq]
    constructor
    · intro _
      exact hp.eq_of_length (by omega)
    · intro _
      simp
  · rw [if_neg h]
    constructor
    · intro hc
      exact absurd rfl hc
    · rintro rfl
      refine absurd ⟨by omega, ?_⟩ h
      rw [List.drop_zero]

/-- The per-pattern `p$` alternatives all fail from position zero exactly
when no pattern equals the whole input. -/
theorem flatMap_lit_eol_eq_nil (pps : List (List Char)) (full : List Char) :
    ((pps.map (fun p => Rx.seq (litRx p) .eol)).flatMap
        (fun x => Rx.runs full x 0) = [])
      ↔ ∀ p ∈ pps, p ≠ full := by
  rw [List.flatMap_eq_nil_iff]
  constructor
  · intro hall p hp hpe
    exact (lit_eol_zero_ne p full).mpr hpe (hall _ (List.mem_map_of_mem _ hp))
  · intro hnone x hx
    obtain ⟨p, hp, rfl⟩ := List.mem_map.mp hx
    by_contra hne
    exact hnone p hp ((lit_eol_zero_ne p full).mp hne)

/-- The exclude regex matches, under search semantics, exactly the strings
fully matched by none of the patterns. -/
theorem excludeRx_search (p0 : List Char) (ps : List (List Char)) (s : String) :
    Rx.searchB (excludeRx (p0 :: ps)) s
      = !((p0 :: ps).any (fun p => p == s.toList)) := by
  rw [excludeRx, searchB_bol_seq]
  simp only [Rx.runs, List.map_cons]
  simp only [altListOf_runs]
  have key := flatMap_lit_eol_eq_nil (p0 :: ps) s.toList
  rw [List.map_cons] at key
  by_cases hc : ((Rx.seq (litRx p0) Rx.eol
      :: ps.map (fun p => Rx.seq (litRx p) Rx.eol)).flatMap
      (fun x => Rx.runs s.toList x 0)) = []
  · have hall := key.mp hc
    have hany : (p0 :: ps).any (fun p => p == s.toList) = false := by
      rw [List.any_eq_false]
      intro p hp
      rw [beq_iff_eq]
      exact hall p hp
    rw [if_pos (List.isEmpty_iff.mpr hc), hany]
    rfl
  · have hex : ¬ ∀ p ∈ p0 :: ps, p ≠ s.toList :=
      fun hnone => hc (key.mpr hnone)
    push_neg at hex
    obtain ⟨p, hp, hpe⟩ := hex
    have hany : (p0 :: ps).any (fun q => q == s.toList) = true :=
      List.any_eq_true.mpr ⟨p, hp, beq_iff_eq.mpr hpe⟩
    rw [List.isEmpty_eq_false.mpr hc, hany]
    simp

/-- Searching a bare literal pattern is the contiguous-occurrence test. -/
theorem searchB_lit (p : List Char) (s : String) :
    Rx.searchB (litRx p) s = occursIn p s.toList := by
  rw [Bool.eq_iff_iff]
  simp only [Rx.searchB, occursIn, List.any_eq_true, List.mem_range, litRx_runs]
  constructor
  · rintro ⟨i, hi, hf⟩
    refine ⟨i, hi, ?_⟩
    by_cases h : p <+: s.toList.drop i
    · exact List.isPrefixOf_iff_prefix.mpr h
    · rw [if_neg h] at hf
      simp at hf
  · rintro ⟨i, hi, hf⟩
    refine ⟨i, hi, ?_⟩
    rw [if_pos (List.isPrefixOf_iff_prefix.mp hf)]
    simp

/-- Searching a literal pattern anchored at the end is the suffix test. -/
theorem searchB_lit_eol (p : List Char) (s : String) :
    Rx.searchB (.seq (litRx p) .eol) s = p.isSuffixOf s.toList := by
  rw [Bool.eq_iff_iff]
  simp only [Rx.searchB, List.any_eq_true, List.mem_range, runs_lit_eol]
  rw [List.isSuffixOf_iff_suffix]
  constructor
  · rintro ⟨i, hi, hf⟩
    by_cases h : i + p.length = s.toList.length ∧ p <+: s.toList.drop i
    · obtain ⟨hl, hp⟩ := h
      have hpd : p = s.toList.drop i :=
        hp.eq_of_length (by simp only [List.length_drop]; omega)
      rw [hpd]
      exact List.drop_suffix i s.toList
    · rw [if_neg h] at hf
      simp at hf
  · intro hsuf
    have hlen : p.length ≤ s.toList.length := hsuf.length_le
    rw [List.suffix_iff_eq_drop] at hsuf
    refine ⟨s.toList.length - p.length, by omega, ?_⟩
    have hcond : (s.toList.length - p.length) + p.length = s.toList.length ∧
        p <+: s.toList.drop (s.toList.length - p.length) := by
      refine ⟨by omega, ?_⟩
      rw [← hsuf]
    rw [if_pos hcond]
    simp

/-- Search semantics of alternatives two to n of the include regex: middle
patterns occur anywhere, the last must be a suffix. -/
theorem includeTail_search (p : List Char) (rest : List (List Char)) (s : String) :
    Rx.searchB (includeRxTail (p :: rest)) s
      = includeTailSpec (p :: rest) s.toList := by
  induction rest generalizing p with
  | nil =>
    rw [show includeRxTail [p] = .seq (litRx p) .eol from rfl, searchB_lit_eol]
    rfl
  | cons q rest2 ih =>
    rw [show includeRxTail (p :: q :: rest2)
        = .alt (litRx p) (includeRxTail (q :: rest2)) from rfl]
    rw [searchB_alt, searchB_lit, ih q]
    rfl

/-- Search semantics of the whole include regex. -/
theorem includeRx_search (p : List Char) (rest : List (List Char)) (s : String) :
    Rx.searchB (includeRx (p :: rest)) s
      = includeSearchSpec (p :: rest) s.toList := by
  cases rest with
  | nil =>
    rw [show includeRx [p] = .seq .bol (.seq (litRx p) .eol) from rfl,
      searchB_bol_seq, runs_lit_eol]
    rw [show includeSearchSpec [p] s.toList = (p == s.toList) from rfl]
    rw [Bool.eq_iff_iff]
    by_cases h : 0 + p.length = s.toList.length ∧ p <+: s.toList.drop 0
    · rw [if_pos h]
      obtain ⟨hl, hp⟩ := h
      rw [List.drop_zero] at hp
      have hpe : p = s.toList := hp.eq_of_length (by omega)
      simp [hpe]
    · rw [if_neg h]
      constructor
      · intro hf
        simp at hf
      · intro hbeq
        exfalso
        have hpe : p = s.toList := beq_iff_eq.mp hbeq
        refine h ⟨by rw [hpe]; omega, ?_⟩
        rw [List.drop_zero, hpe]
  | cons q rest2 =>
    rw [show includeRx (p :: q :: rest2)
        = .alt (.seq .bol (litRx p)) (includeRxTail (q :: rest2)) from rfl]
    rw [searchB_alt, includeTail_search, searchB_bol_seq, litRx_runs]
    rw [show includeSearchSpec (p :: q :: rest2) s.toList
        = (p.isPrefixOf s.toList || includeTailSpec (q :: rest2) s.toList)
        from rfl]
    by_cases h : p <+: s.toList.drop 0
    · have hb : p.isPrefixOf s.toList = true :=
        List.isPrefixOf_iff_prefix.mpr (by rwa [List.drop_zero] at h)
      rw [if_pos h, hb]
      simp
    · have hb : p.isPrefixOf s.toList = false := by
        rw [Bool.eq_false_iff]
        intro hc
        rw [List.drop_zero] at h
        exact h (List.isPrefixOf_iff_prefix.mp hc)
      rw [if_neg h, hb]
      simp

/-- Printing a literal tree gives back the pattern text. -/
theorem litRx_print (p : List Char) : (litRx p).print = String.mk p := by
  induction p with
  | nil => rfl
  | cons c p ih =>
    rw [litRx_cons]
    simp only [Rx.print]
    apply String.ext
    rw [String.data_append, ih]
    rfl

/-- Print of the include tail is the joined remaining patterns with the
trailing anchor. -/
theorem includeRxTail_print (p : List Char) (rest : List (List Char)) :
    (includeRxTail (p :: rest)).print
      = joinBar ((p :: rest).map String.mk) ++ "$" := by
  induction rest generalizing p with
  | nil =>
    simp only [show includeRxTail [p] = .seq (litRx p) .eol from rfl, Rx.print,
      litRx_print, List.map_cons, List.map_nil]
    rfl
  | cons q rest2 ih =>
    have ihq := ih q
    simp only [List.map_cons] at ihq ⊢
    simp only [show includeRxTail (p :: q :: rest2)
        = .alt (litRx p) (includeRxTail (q :: rest2)) from rfl, Rx.print,
      litRx_print, ihq]
    simp only [show joinBar (String.mk p :: String.mk q :: rest2.map String.mk)
        = String.mk p ++ "|" ++ joinBar (String.mk q :: rest2.map String.mk)
        from rfl]
    apply String.ext
    simp [String.data_append]

/-- C3 print correspondence for the include constructor. -/
theorem includeRx_print (p : List Char) (rest : List (List Char)) :
    (includeRx (p :: rest)).print
      = construct_filter_include_regex ((p :: rest).map String.mk) := by
  cases rest with
  | nil =>
    simp only [show includeRx [p] = .seq .bol (.seq (litRx p) .eol) from rfl,
      Rx.print, litRx_print, construct_filter_include_regex, List.map_cons,
      List.map_nil]
    apply String.ext
    simp [String.data_append, joinBar]
  | cons q rest2 =>
    have htail := includeRxTail_print q rest2
    simp only [List.map_cons] at htail ⊢
    simp only [show includeRx (p :: q :: rest2)
        = .alt (.seq .bol (litRx p)) (includeRxTail (q :: rest2)) from rfl,
      Rx.print, litRx_print, htail, construct_filter_include_regex]
    simp only [show joinBar (String.mk p :: String.mk q :: rest2.map String.mk)
        = String.mk p ++ "|" ++ joinBar (String.mk q :: rest2.map String.mk)
        from rfl]
    apply String.ext
    simp [String.data_append]

/-- Print of the grouped per-pattern alternatives of the exclude regex. -/
theorem altListOf_lit_eol_print (p : List Char) (rest : List (List Char)) :
    (altListOf ((p :: rest).map (fun x => Rx.seq (litRx x) .eol))).print
      = joinBar ((p :: rest).map (fun x => String.mk x ++ "$")) := by
  induction rest generalizing p with
  | nil =>
    simp only [List.map_cons, List.map_nil, altListOf, Rx.print, litRx_print]
    rfl
  | cons q rest2 ih =>
    have ihq := ih q
    simp only [List.map_cons] at ihq ⊢
    simp only [altListOf, Rx.print, litRx_print, ihq]
    simp only [show joinBar ((String.mk p ++ "$") :: (String.mk q ++ "$")
          :: rest2.map (fun x => String.mk x ++ "$"))
        = (String.mk p ++ "$") ++ "|" ++ joinBar ((String.mk q ++ "$")
          :: rest2.map (fun x => String.mk x ++ "$")) from rfl]

/-- C3 print correspondence for the exclude constructor. -/
theorem excludeRx_print (p : List Char) (rest : List (List Char)) :
    (excludeRx (p :: rest)).print
      = construct_filter_exclude_regex ((p :: rest).map String.mk) := by
  simp only [excludeRx, Rx.print, altListOf_lit_eol_print,
    construct_filter_exclude_regex, List.map_map]
  have harg : (p :: rest).map ((fun s => s ++ "$") ∘ String.mk)
      = (p :: rest).map (fun x => String.mk x ++ "$") := rfl
  rw [harg]
  apply String.ext
  simp [String.data_append]

/-- C3 (counterexample): for patterns ["a", "b"] the constructed include
regex is "^a|b$"; under the regex dialect's loosest-binding alternation,
whose parse tree is `includeRx`, that pattern matches "ax" under search even
though "ax" is fully matched by neither "a" nor "b": the alternation is not
anchored per-alternative, refuting the claimed language. -/
theorem filter_include_regex_counterexample :
    construct_filter_include_regex ["a", "b"] = "^a|b$" ∧
    (includeRx [['a'], ['b']]).print = "^a|b$" ∧
    Rx.searchB (includeRx [['a'], ['b']]) "ax" = true ∧
    "ax".toList ≠ ['a'] ∧ "ax".toList ≠ ['b'] := by
  refine ⟨by decide, by decide, by decide, by decide, by decide⟩

/-- C3 (amended): for every non-empty sequence of alternation-free literal
patterns, `construct_filter_exclude_regex` builds a regex matching (under
search) exactly the strings fully matched by none of the patterns, while
`construct_filter_include_regex` builds "^p1|...|pn$", in which the anchors
bind only the first and last alternatives: it matches s iff p1 matches a
prefix of s, some middle pattern occurs in s, or the last pattern matches a
suffix of s (`includeSearchSpec`); only in the single-pattern case does it
match exactly the full matches. The print lemmas tie the parse trees to the
exact strings the source constructs. -/
theorem filter_regex_semantics (p : List Char) (rest : List (List Char))
    (s : String) (hplain : (p :: rest).all plainPat = true) :
    ((includeRx (p :: rest)).print
        = construct_filter_include_regex ((p :: rest).map String.mk)) ∧
    ((excludeRx (p :: rest)).print
        = construct_filter_exclude_regex ((p :: rest).map String.mk)) ∧
    (Rx.searchB (excludeRx (p :: rest)) s
        = !((p :: rest).any (fun q => q == s.toList))) ∧
    (Rx.searchB (includeRx (p :: rest)) s
        = includeSearchSpec (p :: rest) s.toList) ∧
    (rest = [] → (Rx.searchB (includeRx (p :: rest)) s = true ↔ s.toList = p)) := by
  refine ⟨includeRx_print p rest, excludeRx_print p rest, excludeRx_search p rest s,
    includeRx_search p rest s, ?_⟩
  rintro rfl
  rw [includeRx_search]
  rw [show includeSearchSpec [p] s.toList = (p == s.toList) from rfl]
  rw [beq_iff_eq]
  exact eq_comm

/-- C3 (witness): the amended statement at patterns ["a", "b"] and input
"ax": the exclude regex matches "ax" since neither pattern fully matches
it. -/
theorem filter_regex_semantics_witness :
    Rx.searchB (excludeRx [['a'], ['b']]) "ax"
      = !([['a'], ['b']].any (fun q => q == "ax".toList)) :=
  (filter_regex_semantics ['a'] [['b']] "ax" (by decide)).2.2.1

end Esdbclient
